import Mathlib

/-!
Verification development for the report-killer repository.

The Python sources are shallowly embedded: Python strings are Lean
`String`s (lists of characters), Python `int` is `Int`, Python lists are
Lean `List`s, and the few fallible operations return `Option`.  External
collaborators (the filesystem, the subprocess-based code runner, the
chart renderer) enter as explicit function parameters.  Scanning loops
that advance by a data-dependent amount are written with an explicit
fuel argument equal to the input length (each step consumes at least one
character, so the fuel never runs out; fuel-irrelevance lemmas are
proved below), keeping every definition structurally recursive and
kernel-computable.
-/

/- ## Python string primitives used by the sources -/

/-- Python `str.strip()`: remove leading and trailing whitespace. -/
def pyStrip (s : String) : String :=
  ⟨((s.data.dropWhile Char.isWhitespace).reverse.dropWhile Char.isWhitespace).reverse⟩

/-- Python `str.lower()` (the sources only lower-case ASCII names). -/
def pyLower (s : String) : String := ⟨s.data.map Char.toLower⟩

/-- Split a character list at newline characters, Python `str.split('\n')`:
`[]` maps to `[[]]` just as `''.split('\n') == ['']`. -/
def splitNlChars : List Char → List (List Char)
  | [] => [[]]
  | c :: cs =>
    match splitNlChars cs with
    | [] => [[]]
    | grp :: rest => if c = '\n' then [] :: grp :: rest else (c :: grp) :: rest

/-- Python `str.split('\n')`. -/
def splitNl (s : String) : List String := (splitNlChars s.data).map String.mk

/-- Python `' '.join(parts)`. -/
def joinSpace (parts : List String) : String := String.intercalate " " parts

/-- Boolean list-prefix test (used for substring search). -/
def isPrefixL : List Char → List Char → Bool
  | [], _ => true
  | _ :: _, [] => false
  | a :: as, b :: bs => a = b && isPrefixL as bs

/-- Substring search over character lists. -/
def containsSubL (needle : List Char) : List Char → Bool
  | [] => isPrefixL needle []
  | c :: cs => isPrefixL needle (c :: cs) || containsSubL needle cs

/-- Python `sub in hay` for strings. -/
def strContains (hay sub : String) : Bool := containsSubL sub.data hay.data

/-- Python `str.endswith(suffix)`. -/
def pyEndsWith (s suffix : String) : Bool := isPrefixL suffix.data.reverse s.data.reverse

/-- Whether the character list contains a run of three or more characters
satisfying `p` (the `_{3,}` / `\s{3,}` regex alternatives of
`docx_handler_old.analyze_structure`). -/
def hasRunGe3 (p : Char → Bool) : List Char → Bool
  | c1 :: c2 :: c3 :: rest => (p c1 && p c2 && p c3) || hasRunGe3 p (c2 :: c3 :: rest)
  | _ => false

/- ## Data model (`docx_handler.py`) -/

/-- One structured content item handed to `DocxHandler.insert_content_at_point`.
The source uses dynamic dicts `{'type': ..., 'data': ..., ...}`; this is the
closed tagged variant over the four recognised `type` values.  The `width`
key of image items only scales the rendered picture and is not modelled. -/
inductive ContentItem where
  | text (data : String)
  | code (data : String) (language : String)
  | table (data : List (List String)) (headers : Option (List String))
  | image (data : String)
  deriving Repr, DecidableEq

/-- Discriminator for table items. -/
def ContentItem.isTable : ContentItem → Bool
  | .table _ _ => true
  | _ => false

/-- A block-level element spliced into the live document. -/
inductive DocElem where
  | para (text : String)
  | tableElem (grid : List (List String))
  | imageElem (path : String)
  deriving Repr, DecidableEq

/-- The `InsertionPoint` class of `docx_handler.py`: `__init__` sets
`filled = False`, `content = []` and `actual_insert_index = para_index`. -/
structure InsertionPoint where
  para_index : Int
  description : String
  context_before : String := ""
  context_after : String := ""
  filled : Bool := false
  content : List ContentItem := []
  actual_insert_index : Int := para_index
  deriving Repr, DecidableEq

namespace DocxHandler

/-- Lines of a code body, Python `code.split('\n')` in `insert_code_block`. -/
def codeLines (code : String) : List String := splitNl code

/-- The paragraphs spliced by `insert_code_block`: one per line, a
whitespace-only line becoming a single-space paragraph
(`line if line.strip() else " "`).  It inserts `(codeLines code).length`
paragraphs. -/
def codeParas (code : String) : List DocElem :=
  (codeLines code).map fun line =>
    DocElem.para (if pyStrip line = "" then " " else line)

/-- Python truthiness of the `headers` argument of `insert_table`:
`None` and the empty list are both falsy. -/
def headersTruthy : Option (List String) → Bool
  | some (_ :: _) => true
  | _ => false

/-- Pad a data row to `cols` cells with empty strings; `none` when the row
has more cells than the table (Python raises `IndexError` there, since
`table.rows[r].cells[c]` is accessed for every cell of the row).  A cell
written stays, a cell never written keeps python-docx's default empty
text. -/
def fillRow (cols : Nat) (cells : List String) : Option (List String) :=
  if cells.length ≤ cols then some (cells ++ List.replicate (cols - cells.length) "")
  else none

/-- The `for row_idx, row_data in enumerate(data)` fill loop of
`insert_table`, row by row; the first failing row aborts (Python raises). -/
def fillRows (cols : Nat) : List (List String) → Option (List (List String))
  | [] => some []
  | r :: rest =>
    match fillRow cols r, fillRows cols rest with
    | some x, some xs => some (x :: xs)
    | _, _ => none

/-- Row count computed by `insert_table`:
`rows = len(data) + (1 if headers else 0)`. -/
def tableRows (data : List (List String)) (headers : Option (List String)) : Nat :=
  data.length + (if headersTruthy headers then 1 else 0)

/-- Column count computed by `insert_table`:
`cols = len(headers) if headers else len(data[0]) if data else 0`. -/
def tableCols (data : List (List String)) (headers : Option (List String)) : Nat :=
  if headersTruthy headers then (headers.getD []).length
  else match data with
    | [] => 0
    | r :: _ => r.length

/-- Model of `DocxHandler.insert_table`: returns the grid of cell texts
(header row first when present) and the value `insert_table` returns
(`0` when no table is created because `rows == 0 or cols == 0`, else `1`).
The outer `Option` is Python exception propagation (`IndexError` on a data
row wider than the computed column count). -/
def insert_table (data : List (List String)) (headers : Option (List String)) :
    Option (Option (List (List String)) × Nat) :=
  if tableRows data headers = 0 ∨ tableCols data headers = 0 then some (none, 0)
  else
    (fillRows (tableCols data headers) data).map fun dataRows =>
      (some ((if headersTruthy headers then [headers.getD []] else []) ++ dataRows), 1)

/-- Splice-loop state inside `insert_content_at_point`: `current_index`,
`inserted_total`, and the elements spliced so far (in order). -/
structure SpliceState where
  current_index : Int
  inserted_total : Nat
  spliced : List DocElem
  deriving Repr, DecidableEq

/-- One iteration of the `for item in content` loop of
`insert_content_at_point`.  `fs` is `Path(...).exists()`. -/
def applyItem (fs : String → Bool) (st : SpliceState) : ContentItem → Option SpliceState
  | .text data =>
      some ⟨st.current_index + 1, st.inserted_total + 1, st.spliced ++ [DocElem.para data]⟩
  | .code data _language =>
      let n := (codeLines data).length
      some ⟨st.current_index + n, st.inserted_total + n, st.spliced ++ codeParas data⟩
  | .table data headers =>
      (insert_table data headers).map fun r =>
        ⟨st.current_index + r.2, st.inserted_total + r.2,
          st.spliced ++ (match r.1 with | some g => [DocElem.tableElem g] | none => [])⟩
  | .image path =>
      if fs path then
        some ⟨st.current_index + 1, st.inserted_total + 1, st.spliced ++ [DocElem.imageElem path]⟩
      else some st

/-- Result of a completed `insert_content_at_point` call. -/
structure InsertOutcome where
  points : List InsertionPoint
  inserted_total : Nat
  final_index : Int
  spliced : List DocElem
  deriving Repr, DecidableEq

/-- Model of `DocxHandler.insert_content_at_point`.  `points` is
`self.insertion_points` and `k` the position of the `point` argument in it
(how `process_document` uses the handler).  After the splice loop the point
is marked filled, its `content` is set to the submitted list and
`actual_insert_index` to the final cursor; then every stored point with a
strictly greater `para_index` that is not filled is shifted by
`inserted_total`.  `none` is Python exception propagation from a failing
splice. -/
def insert_content_at_point (points : List InsertionPoint) (k : Nat)
    (content : List ContentItem) (fs : String → Bool) : Option InsertOutcome :=
  match points.get? k with
  | none => none
  | some point =>
    (content.foldlM (applyItem fs) ⟨point.para_index, 0, []⟩).map fun st =>
      let filledPoint : InsertionPoint :=
        { point with filled := true, content := content, actual_insert_index := st.current_index }
      let afterFill := points.set k filledPoint
      let rebased := afterFill.map fun p =>
        if point.para_index < p.para_index ∧ p.filled = false then
          { p with para_index := p.para_index + st.inserted_total }
        else p
      ⟨rebased, st.inserted_total, st.current_index, st.spliced⟩

/-- Result record of `DocxHandler.get_completion_status`; `completion_rate`
is Python's true division, modelled exactly over `ℚ`. -/
structure CompletionStatus where
  total : Nat
  filled : Nat
  remaining : Nat
  completion_rate : ℚ
  points : List InsertionPoint

/-- Model of `DocxHandler.get_completion_status`. -/
def get_completion_status (points : List InsertionPoint) : CompletionStatus :=
  let total := points.length
  let filled := (points.filter (fun p => p.filled)).length
  { total := total
    filled := filled
    remaining := total - filled
    completion_rate := if total > 0 then (filled : ℚ) / total else 0
    points := points }

end DocxHandler

/- ## Code execution capability checks (`code_executor.py`) -/

/-- Availability of the tools probed by `CodeExecutor._detect_tools`
(`shutil.which` results, an environment fact). -/
structure Tools where
  gcc : Bool
  gpp : Bool
  cl : Bool
  clang : Bool
  python : Bool
  javac : Bool
  java : Bool
  node : Bool
  go : Bool
  deriving Repr, DecidableEq

namespace CodeExecutor

/-- Model of `CodeExecutor.get_available_languages`. -/
def get_available_languages (tools : Tools) : List String :=
  (if tools.gcc || tools.gpp then ["C", "C++"] else []) ++
  (if tools.python then ["Python"] else []) ++
  (if tools.javac && tools.java then ["Java"] else []) ++
  (if tools.node then ["JavaScript"] else []) ++
  (if tools.go then ["Go"] else [])

/-- Model of `CodeExecutor.can_execute_language`: lower-cases its argument,
then recognises only `c`, `c++`, `cpp`, `python` and `java`. -/
def can_execute_language (tools : Tools) (language : String) : Bool × String :=
  let language := pyLower language
  if language = "c" ∨ language = "c++" ∨ language = "cpp" then
    if tools.gcc || tools.gpp then (true, "gcc/g++ available")
    else (false, "No C/C++ compiler found. Please install gcc/g++ or Visual Studio.")
  else if language = "python" then
    if tools.python then (true, "Python available")
    else (false, "Python not found. Please install Python 3.")
  else if language = "java" then
    if tools.javac && tools.java then (true, "Java available")
    else (false, "Java not found. Please install JDK.")
  else (false, "Language " ++ language ++ " not supported")

end CodeExecutor

/- ## Response parsing (`agent.py`) -/

namespace ReportAgent

/-- Python `\w` on the ASCII inputs at hand (the regex additionally
accepts non-ASCII word characters, which the fence tags here never use). -/
def isWordChar (c : Char) : Bool := c.isAlphanum || c = '_'

/-- Greedy `takeWhile` returning the matched prefix and the rest. -/
def takeWhileSplit (p : Char → Bool) : List Char → List Char × List Char
  | [] => ([], [])
  | c :: cs =>
    if p c then
      let (run, rest) := takeWhileSplit p cs
      (c :: run, rest)
    else ([], c :: cs)

/-- The non-greedy `(.*?)```: characters up to the first triple backtick,
`none` when the fence is never closed. -/
def findClose : List Char → Option (List Char × List Char)
  | [] => none
  | c :: cs =>
    if c = '`' ∧ isPrefixL ['`', '`'] cs then some ([], cs.drop 2)
    else (findClose cs).map fun r => (c :: r.1, r.2)

/-- Attempt of the fence regex ````(\w+)?\n(.*?)``` ` at the head of the
input: three backticks, an optional greedy word-character tag (the empty
tag standing for a missing group), a mandatory newline, then a minimal
body up to the closing backticks. -/
def tryFence (cs : List Char) : Option (String × String × List Char) :=
  if isPrefixL ['`', '`', '`'] cs then
    match takeWhileSplit isWordChar (cs.drop 3) with
    | (tag, '\n' :: rest2) =>
      match findClose rest2 with
      | some br => some (⟨tag⟩, ⟨br.1⟩, br.2)
      | none => none
    | _ => none
  else none

/-- Leftmost-scan loop of
`re.sub(code_pattern, replace_code_block, response, flags=re.DOTALL)` in
`_parse_response_to_structured_content`: each match is replaced by
`<<<CODE_BLOCK_i>>>` while `(language.lower(), code)` is appended to the
collected blocks, the language defaulting to `'python'` when the tag group
is missing.  The fuel starts at the input length and each step consumes at
least one character, so the zero-fuel branch is unreachable
(`extractAux_fuel` below). -/
def extractAux : Nat → List Char → List (String × String) →
    List Char × List (String × String)
  | 0, cs, acc => (cs, acc)
  | _ + 1, [], acc => ([], acc)
  | fuel + 1, c :: cs, acc =>
    match tryFence (c :: cs) with
    | some (tag, body, rest) =>
      let language := pyLower (if tag = "" then "python" else tag)
      let placeholder := "<<<CODE_BLOCK_" ++ toString acc.length ++ ">>>"
      let r := extractAux fuel rest (acc ++ [(language, body)])
      (placeholder.data ++ r.1, r.2)
    | none =>
      let r := extractAux fuel cs acc
      (c :: r.1, r.2)

/-- The placeholder substitution plus collection pass over a response. -/
def extractCodeBlocks (response : String) : String × List (String × String) :=
  let r := extractAux response.data.length response.data []
  (⟨r.1⟩, r.2)

/-- Leftmost scan of `re.sub(r'\*\*([^*]+)\*\*', r'\1', s)`: a bold match
needs two stars, a nonempty star-free run, and two closing stars; on
failure the scan advances one character. -/
def subBoldAux : Nat → List Char → List Char
  | 0, cs => cs
  | _ + 1, [] => []
  | fuel + 1, c :: cs =>
    if c = '*' ∧ isPrefixL ['*'] cs then
      let s := takeWhileSplit (fun ch => ch ≠ '*') (cs.drop 1)
      if s.1 ≠ [] ∧ isPrefixL ['*', '*'] s.2 then s.1 ++ subBoldAux fuel (s.2.drop 2)
      else c :: subBoldAux fuel cs
    else c :: subBoldAux fuel cs

/-- Python `re.sub(r'\*\*([^*]+)\*\*', r'\1', s)`. -/
def subBold (s : String) : String := ⟨subBoldAux s.data.length s.data⟩

/-- Leftmost scan of `re.sub(r'\*([^*]+)\*', r'\1', s)`. -/
def subItalicAux : Nat → List Char → List Char
  | 0, cs => cs
  | _ + 1, [] => []
  | fuel + 1, c :: cs =>
    if c = '*' then
      let s := takeWhileSplit (fun ch => ch ≠ '*') cs
      if s.1 ≠ [] ∧ isPrefixL ['*'] s.2 then s.1 ++ subItalicAux fuel (s.2.drop 1)
      else c :: subItalicAux fuel cs
    else c :: subItalicAux fuel cs

/-- Python `re.sub(r'\*([^*]+)\*', r'\1', s)`. -/
def subItalic (s : String) : String := ⟨subItalicAux s.data.length s.data⟩

/-- Digits-to-number conversion, Python `int(...)` on a digit string. -/
def digitsToNat (ds : List Char) : Nat :=
  ds.foldl (fun acc c => 10 * acc + (c.toNat - '0'.toNat)) 0

/-- Prefix match of `re.match(r'<<<CODE_BLOCK_(\d+)>>>', line)`
(`re.match` anchors only at the start, trailing characters are allowed). -/
def parsePlaceholder (cs : List Char) : Option Nat :=
  let lit := "<<<CODE_BLOCK_".data
  if isPrefixL lit cs then
    let (digits, rest) := takeWhileSplit Char.isDigit (cs.drop lit.length)
    match digits, rest with
    | _ :: _, '>' :: '>' :: '>' :: _ => some (digitsToNat digits)
    | _, _ => none
  else none

/-- External collaborator bundle of `ReportAgent`: detected tools (drives
`can_execute_language`), the subprocess code runner
(`execute_code`, abstracted to its `(success, output)` pair — the returned
code-file path is unused by the parser), and the chart renderer
(`ChartGenerator.parse_chart_from_code`, a path on success). -/
structure ExecEnv where
  tools : Tools
  execCode : String → String → Bool × String
  chartGen : String → Option String

/-- Handling of one recovered `(language, code)` pair in
`_parse_response_to_structured_content`: the matplotlib branch consults the
chart renderer and emits image-then-code on success; otherwise the code
item is emitted and, when the language is executable and the point's
description contains one of the execution keywords, an output-report text
item is appended. -/
def emitCodeBlock (env : ExecEnv) (descr : String) (content : List ContentItem)
    (language code : String) : List ContentItem :=
  if language = "python" && (strContains code "plt." || strContains code "matplotlib") then
    match env.chartGen code with
    | some path => content ++ [ContentItem.image path, ContentItem.code code language]
    | none => content ++ [ContentItem.code code language]
  else
    let content := content ++ [ContentItem.code code language]
    let canEx := (CodeExecutor.can_execute_language env.tools language).1
    if canEx && (strContains descr "代码" || strContains descr "程序" || strContains descr "实现") then
      let r := env.execCode language code
      if r.1 then content ++ [ContentItem.text ("程序执行结果：\n" ++ r.2)]
      else content ++ [ContentItem.text ("程序执行失败：\n" ++ r.2)]
    else content

/-- Flush of an accumulated paragraph with the markdown-removal
substitutions applied (the two flush sites inside the line loop). -/
def flushParaSub (current : List String) (content : List ContentItem) : List ContentItem :=
  match current with
  | [] => content
  | _ => content ++ [ContentItem.text (subItalic (subBold (joinSpace current)))]

/-- Final flush after the loop, which joins without re-applying the
substitutions (each line was already substituted when accumulated). -/
def flushParaFinal (current : List String) (content : List ContentItem) : List ContentItem :=
  match current with
  | [] => content
  | _ => content ++ [ContentItem.text (joinSpace current)]

/-- The `for line in lines` walk of `_parse_response_to_structured_content`:
strip the line; a placeholder line flushes the paragraph and emits its code
block (silently skipped when the index is out of range); an empty or
`#`-heading line flushes; any other line is markdown-stripped and
accumulated. -/
def walkLines (env : ExecEnv) (descr : String) (codeBlocks : List (String × String)) :
    List String → List String → List ContentItem → List ContentItem
  | [], currentPara, content => flushParaFinal currentPara content
  | rawLine :: rest, currentPara, content =>
    let line := pyStrip rawLine
    match parsePlaceholder line.data with
    | some idx =>
      let content1 := flushParaSub currentPara content
      let content2 :=
        match codeBlocks.get? idx with
        | some lc => emitCodeBlock env descr content1 lc.1 lc.2
        | none => content1
      walkLines env descr codeBlocks rest [] content2
    | none =>
      if line = "" || isPrefixL "#".data line.data then
        walkLines env descr codeBlocks rest [] (flushParaSub currentPara content)
      else
        walkLines env descr codeBlocks rest (currentPara ++ [subItalic (subBold line)]) content

/-- Model of `ReportAgent._parse_response_to_structured_content`. -/
def parse_response_to_structured_content (env : ExecEnv) (response : String)
    (point : InsertionPoint) : List ContentItem :=
  let r := extractCodeBlocks response
  walkLines env point.description r.2 (splitNl (pyStrip r.1)) [] []

/-- Half-open integer interval `[lo, hi)`, Python `range(lo, hi)`. -/
def intRangeIdx (lo hi : Int) : List Int :=
  (List.range (hi - lo).toNat).map fun n => lo + Int.ofNat n

/-- Python list indexing `paragraphs[i]`: a non-negative index must be
below the length, a negative index wraps by the length, and any other
index raises `IndexError`, modelled as `none`. -/
def pyGetItem (l : List String) (i : Int) : Option String :=
  if 0 ≤ i then
    if i < (l.length : Int) then some (l.getD i.toNat "") else none
  else
    if 0 ≤ (l.length : Int) + i then some (l.getD ((l.length : Int) + i).toNat "")
    else none

/-- The before-window loop of `get_context_around_index`: indices from
`max(0, para_index - before)` up to `para_index`, every access guarded by
`i < len(self.doc.paragraphs)`; all these indices are non-negative, so the
loop never raises.  Collects the non-empty stripped texts. -/
def contextBeforeWindow (paragraphs : List String) (para_index before : Int) : List String :=
  (intRangeIdx (max 0 (para_index - before)) para_index).filterMap fun i =>
    if i < (paragraphs.length : Int) then
      match pyGetItem paragraphs i with
      | some raw => if pyStrip raw = "" then none else some (pyStrip raw)
      | none => none
    else none

/-- The after-window loop of `get_context_around_index` over a list of
indices: each `self.doc.paragraphs[i]` access is unguarded, so a negative
index wraps and a too-negative one raises, aborting the loop (`none`). -/
def contextAfterWindow (paragraphs : List String) : List Int → Option (List String)
  | [] => some []
  | i :: rest =>
    match pyGetItem paragraphs i with
    | none => none
    | some raw =>
      (contextAfterWindow paragraphs rest).map fun texts =>
        if pyStrip raw = "" then texts else pyStrip raw :: texts

/-- Model of `DocxHandler.get_context_around_index`: the joined non-empty
stripped paragraph texts in the `before`/`after` windows around the index.
The after loop runs over `range(para_index + 1, min(len, para_index +
after + 1))` with unguarded accesses, so for `para_index ≤ -2` it can
reach a negative index: that wraps for `-len ≤ i` and raises `IndexError`
(the `none` case) otherwise. -/
def get_context_around_index (paragraphs : List String) (para_index : Int)
    (before : Int := 5) (after : Int := 5) : Option (String × String) :=
  (contextAfterWindow paragraphs
      (intRangeIdx (para_index + 1)
        (min (paragraphs.length : Int) (para_index + after + 1)))).map fun afterText =>
    (String.intercalate "\n" (contextBeforeWindow paragraphs para_index before),
     String.intercalate "\n" afterText)

/-- One element of the decoded `data["insertion_points"]` JSON list in
`_parse_insertion_points_response`: `item.get("para_index")` may be absent,
`item.get("description", "")` defaults to the empty string. -/
structure RawPointItem where
  para_index : Option Int
  description : Option String
  deriving Repr, DecidableEq

/-- Model of the point-construction loop of
`ReportAgent._parse_insertion_points_response` (lines 218–226): items are
taken in response order, those without a `para_index` are dropped, and the
context windows are computed around each anchor.  The surrounding
`try/except` catches any exception — in particular an `IndexError` from
`get_context_around_index` — logging a warning and returning the points
collected so far, which truncates the list at the failing item.  The JSON
decoding that precedes the loop (`re.search(r'\{.*\}')` plus `json.loads`,
both Python stdlib collaborators) is abstracted: `items` is the
already-decoded list, and the `except` path for malformed JSON (an empty
result) is the truncation at the very first item. -/
def parse_insertion_points (paragraphs : List String) : List RawPointItem →
    List InsertionPoint
  | [] => []
  | item :: rest =>
    match item.para_index with
    | none => parse_insertion_points paragraphs rest
    | some pi =>
      match get_context_around_index paragraphs pi with
      | none => []
      | some ctx =>
        { para_index := pi, description := item.description.getD ""
          context_before := ctx.1, context_after := ctx.2 } ::
          parse_insertion_points paragraphs rest

end ReportAgent

/- ## Pattern-based locator (`docx_handler_old.py`) -/

namespace DocxHandlerOld

/-- Entry of `analyze_structure`'s `structure["paragraphs"]` list.  The
source stores the flags as optionally-present dict keys, read back with
`.get` (falsy when absent); here they are booleans. -/
structure ParaInfo where
  index : Nat
  text : String
  is_question : Bool
  has_blank : Bool
  deriving Repr, DecidableEq

/-- Detection of questions: `text.endswith("？") or text.endswith("?")`. -/
def isQuestionText (t : String) : Bool := pyEndsWith t "？" || pyEndsWith t "?"

/-- Detection of blanks: `re.search(r'_{3,}|\s{3,}', text)`. -/
def hasBlankText (t : String) : Bool :=
  hasRunGe3 (fun c => c = '_') t.data || hasRunGe3 Char.isWhitespace t.data

/-- The `for idx, para in enumerate(self.paragraphs)` loop of
`analyze_structure` with its running index: empty stripped paragraphs are
skipped but the index still counts them. -/
def analyzeFrom (idx : Nat) : List String → List ParaInfo
  | [] => []
  | raw :: rest =>
    if pyStrip raw = "" then analyzeFrom (idx + 1) rest
    else
      ⟨idx, pyStrip raw, isQuestionText (pyStrip raw), hasBlankText (pyStrip raw)⟩ ::
        analyzeFrom (idx + 1) rest

/-- Model of `DocxHandler.analyze_structure` (old handler) restricted to
the `structure["paragraphs"]` list; `doc` is the list of paragraph texts
of the loaded document. -/
def analyze_structure (doc : List String) : List ParaInfo := analyzeFrom 0 doc

/-- One dict produced by `find_insertion_points`: its `"type"` value,
`"para_index"`, and the `"question"`/`"text"` payload. -/
structure FoundPoint where
  ptType : String
  para_index : Nat
  text : String
  deriving Repr, DecidableEq

/-- Model of `DocxHandler.find_insertion_points` (old handler): a point per
question paragraph, else per blank-bearing paragraph, in document order. -/
def find_insertion_points (doc : List String) : List FoundPoint :=
  (analyze_structure doc).filterMap fun info =>
    if info.is_question then some ⟨"after_question", info.index, info.text⟩
    else if info.has_blank then some ⟨"fill_blank", info.index, info.text⟩
    else none

end DocxHandlerOld

/- ## Characterization of the splice loop (for the amended C2) -/

/-- Padded grid that a successful `insert_table` produces: the header row
(when truthy) followed by each data row padded with empty cells to the
column count. -/
def tableGridSpec (data : List (List String)) (headers : Option (List String)) :
    List (List String) :=
  (if DocxHandler.headersTruthy headers then [headers.getD []] else []) ++
    data.map fun r => r ++ List.replicate (DocxHandler.tableCols data headers - r.length) ""

/-- Cursor advance one content item causes in `insert_content_at_point`
(the per-kind advance of spec §4.4): 1 for text; the number of lines of
the code body for code; 1 for a table with positive row and column
counts, 0 otherwise; 1 for an image whose path exists, 0 otherwise. -/
def itemWeight (fs : String → Bool) : ContentItem → Nat
  | .text _ => 1
  | .code data _ => (DocxHandler.codeLines data).length
  | .table data headers =>
      if DocxHandler.tableRows data headers = 0 ∨ DocxHandler.tableCols data headers = 0
      then 0 else 1
  | .image path => if fs path then 1 else 0

/-- Document elements one content item splices. -/
def itemElems (fs : String → Bool) : ContentItem → List DocElem
  | .text data => [DocElem.para data]
  | .code data _ => DocxHandler.codeParas data
  | .table data headers =>
      if DocxHandler.tableRows data headers = 0 ∨ DocxHandler.tableCols data headers = 0
      then []
      else [DocElem.tableElem (tableGridSpec data headers)]
  | .image path => if fs path then [DocElem.imageElem path] else []

namespace DocxHandler

/-- A successful `fillRow` pads the row with empty cells. -/
lemma fillRow_eq_some {cols : Nat} {cells rs : List String}
    (h : fillRow cols cells = some rs) :
    rs = cells ++ List.replicate (cols - cells.length) "" := by
  unfold fillRow at h
  split at h
  · exact (Option.some.injEq _ _ ▸ h).symm
  · exact absurd h (by simp)

/-- A successful `fillRows` pads every row. -/
lemma fillRows_eq_some {cols : Nat} : ∀ {data rs : List (List String)},
    fillRows cols data = some rs →
    rs = data.map fun r => r ++ List.replicate (cols - r.length) "" := by
  intro data
  induction data with
  | nil => intro rs h; simp only [fillRows, Option.some.injEq] at h; simp [← h]
  | cons r rest ih =>
    intro rs h
    unfold fillRows at h
    cases hfr : fillRow cols r with
    | none => rw [hfr] at h; exact absurd h (by simp)
    | some x =>
      cases hrest : fillRows cols rest with
      | none => rw [hfr, hrest] at h; exact absurd h (by simp)
      | some xs =>
        rw [hfr, hrest] at h
        simp only [Option.some.injEq] at h
        subst h
        simp [fillRow_eq_some hfr, ih hrest]

/-- Effect of one splice-loop iteration, in terms of the per-item weight
and spliced elements. -/
lemma applyItem_some {fs : String → Bool} {st st' : SpliceState} {it : ContentItem}
    (h : applyItem fs st it = some st') :
    st'.current_index = st.current_index + itemWeight fs it ∧
    st'.inserted_total = st.inserted_total + itemWeight fs it ∧
    st'.spliced = st.spliced ++ itemElems fs it := by
  cases it with
  | text data =>
    simp only [applyItem, Option.some.injEq] at h
    subst h; simp [itemWeight, itemElems]
  | code data language =>
    simp only [applyItem, Option.some.injEq] at h
    subst h; simp [itemWeight, itemElems]
  | table data headers =>
    simp only [applyItem, insert_table] at h
    split at h
    · rename_i hzero
      simp only [Option.map_some', Option.some.injEq] at h
      subst h
      simp [itemWeight, itemElems, hzero]
    · rename_i hzero
      rw [Option.map_eq_some'] at h
      obtain ⟨rows, hrows, rfl⟩ := h
      rw [Option.map_eq_some'] at hrows
      obtain ⟨dataRows, hdr, rfl⟩ := hrows
      simp [itemWeight, itemElems, hzero, tableGridSpec, fillRows_eq_some hdr]
  | image path =>
    simp only [applyItem] at h
    split at h <;> simp only [Option.some.injEq] at h <;> subst h
    · rename_i hfs; simp [itemWeight, itemElems, hfs]
    · rename_i hfs
      simp only [Bool.not_eq_true] at hfs
      simp [itemWeight, itemElems, hfs]

/-- The splice loop advances cursor and total by the summed weights and
splices the concatenated per-item elements, in order. -/
lemma foldlM_applyItem {fs : String → Bool} :
    ∀ (content : List ContentItem) (st st' : SpliceState),
    List.foldlM (applyItem fs) st content = some st' →
    st'.current_index = st.current_index + ((content.map (itemWeight fs)).sum : Nat) ∧
    st'.inserted_total = st.inserted_total + (content.map (itemWeight fs)).sum ∧
    st'.spliced = st.spliced ++ (content.map (itemElems fs)).flatten := by
  intro content
  induction content with
  | nil =>
    intro st st' h
    simp only [List.foldlM_nil, pure, Option.some.injEq] at h
    subst h; simp
  | cons it rest ih =>
    intro st st' h
    rw [List.foldlM_cons] at h
    cases h1 : applyItem fs st it with
    | none => rw [h1] at h; simp at h
    | some st1 =>
      rw [h1] at h
      replace h : List.foldlM (applyItem fs) st1 rest = some st' := by simpa using h
      obtain ⟨hc1, ht1, hs1⟩ := applyItem_some h1
      obtain ⟨hc2, ht2, hs2⟩ := ih st1 st' h
      refine ⟨?_, ?_, ?_⟩
      · rw [hc2, hc1]; simp only [List.map_cons, List.sum_cons, Nat.cast_add]; ring
      · rw [ht2, ht1]; simp only [List.map_cons, List.sum_cons]; omega
      · rw [hs2, hs1]; simp [List.append_assoc]

/-- Unfolding of a successful `insert_content_at_point` call. -/
lemma insert_content_eq {points : List InsertionPoint} {k : Nat}
    {content : List ContentItem} {fs : String → Bool} {out : InsertOutcome}
    (h : insert_content_at_point points k content fs = some out) :
    ∃ (q : InsertionPoint) (st : SpliceState),
      points.get? k = some q ∧
      List.foldlM (applyItem fs) (⟨q.para_index, 0, []⟩ : SpliceState) content = some st ∧
      out = ⟨(points.set k
                { q with filled := true, content := content,
                         actual_insert_index := st.current_index }).map
               (fun p => if q.para_index < p.para_index ∧ p.filled = false then
                   { p with para_index := p.para_index + st.inserted_total }
                 else p),
             st.inserted_total, st.current_index, st.spliced⟩ := by
  unfold insert_content_at_point at h
  cases hq : points.get? k with
  | none => rw [hq] at h; exact absurd h (by simp)
  | some q =>
    rw [hq] at h
    rw [Option.map_eq_some'] at h
    obtain ⟨st, hst, rfl⟩ := h
    exact ⟨q, st, rfl, hst, rfl⟩

end DocxHandler

/- ## Concrete fixtures used by witnesses and counterexamples -/

/-- Two unfilled points at anchors 4 and 8 (spec §8 multi-point scenario). -/
def c1Points : List InsertionPoint :=
  [{ para_index := 4, description := "a" }, { para_index := 8, description := "b" }]

/-- Three text blocks. -/
def c1Content : List ContentItem := [.text "x", .text "y", .text "z"]

/-- Outcome of filling the anchor-4 point of `c1Points` with `c1Content`. -/
def c1Out : DocxHandler.InsertOutcome :=
  ⟨[⟨4, "a", "", "", true, c1Content, 7⟩, ⟨11, "b", "", "", false, [], 8⟩], 3, 7,
   [.para "x", .para "y", .para "z"]⟩

/-- A single point and a content list whose image path does not exist. -/
def c3Points : List InsertionPoint := [{ para_index := 0, description := "d" }]

/-- A text block followed by an image block with a dangling path. -/
def c3Content : List ContentItem := [.text "a", .image "missing.png"]

/-- Outcome of filling `c3Points` with `c3Content` when no path exists. -/
def c3Out : DocxHandler.InsertOutcome :=
  ⟨[⟨0, "d", "", "", true, c3Content, 1⟩], 1, 1, [.para "a"]⟩

/-- One point at anchor 2. -/
def c2Points : List InsertionPoint := [{ para_index := 2, description := "d" }]

/-- One block of each kind: text, a three-line code body with a blank
middle line, a ragged table, and an existing image. -/
def c2Content : List ContentItem :=
  [.text "t", .code "a\n\nb" "python",
   .table [["1", "2"], ["3"]] (some ["A", "B"]), .image "img.png"]

/-- The filesystem in which exactly `img.png` exists. -/
def c2Fs : String → Bool := fun p => p == "img.png"

/-- Outcome of filling `c2Points` with `c2Content` under `c2Fs`. -/
def c2Out : DocxHandler.InsertOutcome :=
  ⟨[⟨2, "d", "", "", true, c2Content, 8⟩], 6, 8,
   [.para "t", .para "a", .para " ", .para "b",
    .tableElem [["A", "B"], ["1", "2"], ["3", ""]], .imageElem "img.png"]⟩

/-- Three insertion points with two filled (the completion-rate example). -/
def c6Three : List InsertionPoint :=
  [{ para_index := 0, description := "a", filled := true },
   { para_index := 1, description := "b", filled := true },
   { para_index := 2, description := "c" }]

/-- Every probed tool available (an environment where `node` and `go` are
both on the PATH). -/
def allTools : Tools :=
  ⟨true, true, true, true, true, true, true, true, true⟩

/- ## Claims -/

/-- C1: after `insert_content_at_point` fills one point, every other stored
point with a strictly greater anchor that is not yet filled is shifted by
exactly the total number of inserted blocks, and every other point (filled,
or anchored at or before the filled point) is unchanged. -/
theorem c1_rebasing_after_insertion (points : List InsertionPoint) (k j : Nat)
    (content : List ContentItem) (fs : String → Bool) (out : DocxHandler.InsertOutcome)
    (p q : InsertionPoint)
    (hrun : DocxHandler.insert_content_at_point points k content fs = some out)
    (hq : points.get? k = some q) (hp : points.get? j = some p) (hjk : j ≠ k) :
    out.points.get? j =
      some (if q.para_index < p.para_index ∧ p.filled = false then
          { p with para_index := p.para_index + out.inserted_total }
        else p) := by
  obtain ⟨q', st, hq', hfold, rfl⟩ := DocxHandler.insert_content_eq hrun
  rw [hq] at hq'
  injection hq' with hq'
  subst hq'
  rw [List.get?_map, List.get?_set_ne _ _ (Ne.symm hjk), hp, Option.map_some']

/-- C1 witness: filling the anchor-4 point of two unfilled points at 4 and 8
with three text blocks moves the second anchor to 11. -/
theorem c1_rebasing_witness :
    DocxHandler.insert_content_at_point c1Points 0 c1Content (fun _ => false) = some c1Out ∧
    c1Out.points.get? 1 = some ⟨11, "b", "", "", false, [], 8⟩ ∧
    (8 : Int) + c1Out.inserted_total = 11 := by
  have hrun : DocxHandler.insert_content_at_point c1Points 0 c1Content (fun _ => false) =
      some c1Out := by decide
  have h := c1_rebasing_after_insertion c1Points 0 1 c1Content (fun _ => false) c1Out
    ⟨8, "b", "", "", false, [], 8⟩ ⟨4, "a", "", "", false, [], 4⟩
    hrun (by decide) (by decide) (by decide)
  exact ⟨hrun, h.trans (by decide), by decide⟩

/-- C2 counterexample: a table block with no headers and no rows advances
the cursor by 0, not 1, so a table block does not always count as one
positional unit. -/
theorem c2_empty_table_counterexample :
    (DocxHandler.insert_content_at_point [{ para_index := 0, description := "d" }] 0
        [.table [] none] (fun _ => false)).map (fun out => out.inserted_total) = some 0 ∧
    (0 : Nat) ≠ 1 := by decide

/-- C2 (amended): a completed `insert_content_at_point` advances the total
and the cursor by 1 per text block, by the line count of each code body
(blank lines spliced as single-space paragraphs, per `itemElems`), by 1
per table block whose computed row and column counts are both positive
(0 otherwise), and by 1 per image block whose path exists (0 otherwise);
the final cursor minus the original anchor equals the total. -/
theorem c2_cursor_advance (points : List InsertionPoint) (k : Nat)
    (content : List ContentItem) (fs : String → Bool) (out : DocxHandler.InsertOutcome)
    (q : InsertionPoint)
    (hrun : DocxHandler.insert_content_at_point points k content fs = some out)
    (hq : points.get? k = some q) :
    out.inserted_total = (content.map (itemWeight fs)).sum ∧
    out.final_index = q.para_index + out.inserted_total ∧
    out.spliced = (content.map (itemElems fs)).flatten := by
  obtain ⟨q', st, hq', hfold, rfl⟩ := DocxHandler.insert_content_eq hrun
  rw [hq] at hq'
  injection hq' with hq'
  subst hq'
  obtain ⟨hc, ht, hs⟩ := DocxHandler.foldlM_applyItem content _ st hfold
  simp only at hc ht hs ⊢
  exact ⟨by omega, by omega, by simpa using hs⟩

/-- C2 witness: one block of each kind (text, three-line code, table,
existing image) advances the total by 1 + 3 + 1 + 1 = 6 and the cursor
from anchor 2 to 8. -/
theorem c2_cursor_advance_witness :
    DocxHandler.insert_content_at_point c2Points 0 c2Content c2Fs = some c2Out ∧
    c2Out.inserted_total = (c2Content.map (itemWeight c2Fs)).sum ∧
    (c2Content.map (itemWeight c2Fs)).sum = 6 ∧
    c2Out.final_index = 2 + 6 := by
  have hrun : DocxHandler.insert_content_at_point c2Points 0 c2Content c2Fs = some c2Out := by
    decide
  have h := c2_cursor_advance c2Points 0 c2Content c2Fs c2Out ⟨2, "d", "", "", false, [], 2⟩
    hrun (by decide)
  exact ⟨hrun, h.1, by decide, by decide⟩

/-- C3 counterexample: with a missing image path the image block splices
nothing, yet `point.content` is set to the whole submitted list, so the
skipped block is not omitted from `point.content`. -/
theorem c3_content_retained_counterexample :
    (DocxHandler.insert_content_at_point c3Points 0 c3Content (fun _ => false)).map
        (fun out => ((out.points.getD 0 ⟨0, "", "", "", false, [], 0⟩).content, out.spliced)) =
      some ([.text "a", .image "missing.png"], [.para "a"]) ∧
    ContentItem.image "missing.png" ∈ ([.text "a", .image "missing.png"] : List ContentItem) ∧
    DocElem.imageElem "missing.png" ∉ ([.para "a"] : List DocElem) := by decide

/-- C3 (amended): a missing-path image block is skipped without aborting
the point; the point is still marked filled, but `point.content` is set to
the entire submitted content list (skipped blocks included), not only to
the blocks that spliced. -/
theorem c3_fill_semantics (points : List InsertionPoint) (k : Nat)
    (content : List ContentItem) (fs : String → Bool) (out : DocxHandler.InsertOutcome)
    (q : InsertionPoint)
    (hrun : DocxHandler.insert_content_at_point points k content fs = some out)
    (hq : points.get? k = some q) :
    out.points.get? k =
      some { q with
             filled := true
             content := content
             actual_insert_index := q.para_index + out.inserted_total } := by
  obtain ⟨q', st, hq', hfold, rfl⟩ := DocxHandler.insert_content_eq hrun
  rw [hq] at hq'
  injection hq' with hq'
  subst hq'
  have hk : k < points.length := by
    rcases List.get?_eq_some.mp hq with ⟨h, _⟩
    exact h
  have hcur : st.current_index = q.para_index + st.inserted_total := by
    obtain ⟨hc, ht, _⟩ := DocxHandler.foldlM_applyItem content _ st hfold
    simp only at hc ht
    omega
  rw [List.get?_map, List.get?_set_eq_of_lt _ (by simpa using hk), Option.map_some']
  simp only [and_false, Bool.true_eq_false, if_neg, not_false_eq_true, ite_eq_right_iff]
  rw [hcur]

/-- C3 witness: the amended fill semantics at the missing-image fixture. -/
theorem c3_fill_semantics_witness :
    DocxHandler.insert_content_at_point c3Points 0 c3Content (fun _ => false) = some c3Out ∧
    c3Out.points.get? 0 = some ⟨0, "d", "", "", true, c3Content, 1⟩ := by
  have hrun : DocxHandler.insert_content_at_point c3Points 0 c3Content (fun _ => false) =
      some c3Out := by decide
  have h := c3_fill_semantics c3Points 0 c3Content (fun _ => false) c3Out
    ⟨0, "d", "", "", false, [], 0⟩ hrun (by decide)
  exact ⟨hrun, h.trans (by decide)⟩

/-- C6: `get_completion_status` is a pure aggregation: it returns the point
list unchanged, `total` is the number of points, `filled` the number of
filled points, `remaining + filled = total`, and the rate satisfies
`rate * total = filled` (in particular `filled/total` when `total > 0`);
the empty list yields rate 0 and 2 filled of 3 yields rate 2/3. -/
theorem c6_completion_status :
    (∀ points : List InsertionPoint,
      (DocxHandler.get_completion_status points).total = points.length ∧
      (DocxHandler.get_completion_status points).filled =
        (points.filter (fun p => p.filled)).length ∧
      (DocxHandler.get_completion_status points).remaining +
          (DocxHandler.get_completion_status points).filled =
        (DocxHandler.get_completion_status points).total ∧
      (DocxHandler.get_completion_status points).completion_rate *
          (DocxHandler.get_completion_status points).total =
        (DocxHandler.get_completion_status points).filled ∧
      (DocxHandler.get_completion_status points).points = points) ∧
    (DocxHandler.get_completion_status []).completion_rate = 0 ∧
    (DocxHandler.get_completion_status c6Three).completion_rate = 2 / 3 := by
  refine ⟨fun points => ⟨rfl, rfl, ?_, ?_, rfl⟩, ?_, ?_⟩
  · exact Nat.sub_add_cancel (List.length_filter_le _ _)
  · by_cases h : points.length = 0
    · rcases List.length_eq_zero.mp h with rfl
      simp [DocxHandler.get_completion_status]
    · have hq : ((points.length : ℚ)) ≠ 0 := by exact_mod_cast h
      simp only [DocxHandler.get_completion_status, if_pos (Nat.pos_of_ne_zero h)]
      field_simp
  · simp [DocxHandler.get_completion_status]
  · norm_num [DocxHandler.get_completion_status, c6Three, List.filter]

/-- C8: rendering headers `["A","B"]` with data rows `[["1","2"],["3"]]`
through `insert_table` succeeds with return value 1 and produces a
two-column grid in which the second data row's missing cell is the empty
string. -/
theorem c8_ragged_table :
    DocxHandler.insert_table [["1", "2"], ["3"]] (some ["A", "B"]) =
      some (some [["A", "B"], ["1", "2"], ["3", ""]], 1) ∧
    ([["A", "B"], ["1", "2"], ["3", ""]] : List (List String)).all
        (fun row => row.length = 2) = true := by decide

/-- C9: filling a point with an empty content list still marks it filled,
records the empty content, splices nothing, and re-bases every other
point by 0 (all other points unchanged). -/
theorem c9_empty_content (points : List InsertionPoint) (k : Nat) (fs : String → Bool)
    (q : InsertionPoint) (hq : points.get? k = some q) :
    DocxHandler.insert_content_at_point points k [] fs =
      some ⟨points.set k { q with
                           filled := true
                           content := []
                           actual_insert_index := q.para_index },
            0, q.para_index, []⟩ := by
  unfold DocxHandler.insert_content_at_point
  rw [hq]
  simp only [List.foldlM_nil, Option.pure_def, Option.map_some']
  have hmap : ∀ l : List InsertionPoint,
      (l.map fun p =>
        if q.para_index < p.para_index ∧ p.filled = false then
          { p with para_index := p.para_index + ((0 : Nat) : Int) }
        else p) = l := by
    intro l
    have hfun : (fun p : InsertionPoint =>
        if q.para_index < p.para_index ∧ p.filled = false then
          { p with para_index := p.para_index + ((0 : Nat) : Int) }
        else p) = id := by
      funext p
      simp only [Nat.cast_zero, add_zero, id]
      split <;> rfl
    rw [hfun, List.map_id]
  exact congrArg some (congrArg (fun l => DocxHandler.InsertOutcome.mk l 0 q.para_index [])
    (hmap _))

/-- C9 witness: empty content on two points at anchors 4 and 8 fills the
first point and leaves the second anchor at 8. -/
theorem c9_empty_content_witness :
    DocxHandler.insert_content_at_point c1Points 0 [] (fun _ => false) =
      some ⟨[⟨4, "a", "", "", true, [], 4⟩, ⟨8, "b", "", "", false, [], 8⟩], 0, 4, []⟩ := by
  have h := c9_empty_content c1Points 0 (fun _ => false) ⟨4, "a", "", "", false, [], 4⟩
    (by decide)
  exact h.trans (by decide)

/-- C10: `can_execute_language` rejects every language whose lower-cased
name is not one of `c`, `c++`, `cpp`, `python`, `java`; at the same time
`get_available_languages` lists `JavaScript` whenever `node` is available
and `Go` whenever `go` is available, so those languages are reported
available yet rejected for execution. -/
theorem c10_language_gate (tools : Tools) (language : String)
    (h : pyLower language ∉ (["c", "c++", "cpp", "python", "java"] : List String)) :
    (CodeExecutor.can_execute_language tools language).1 = false ∧
    (tools.node = true → "JavaScript" ∈ CodeExecutor.get_available_languages tools) ∧
    (tools.go = true → "Go" ∈ CodeExecutor.get_available_languages tools) := by
  simp only [List.mem_cons, List.not_mem_nil, or_false, not_or] at h
  obtain ⟨h1, h2, h3, h4, h5⟩ := h
  refine ⟨?_, ?_, ?_⟩
  · unfold CodeExecutor.can_execute_language
    rw [if_neg (by tauto), if_neg h4, if_neg h5]
  · intro hn
    simp [CodeExecutor.get_available_languages, hn]
  · intro hg
    simp [CodeExecutor.get_available_languages, hg]

/-- C10 witness: with every tool present, `javascript` is rejected although
`JavaScript` and `Go` are listed as available. -/
theorem c10_language_gate_witness :
    (CodeExecutor.can_execute_language allTools "javascript").1 = false ∧
    "JavaScript" ∈ CodeExecutor.get_available_languages allTools ∧
    "Go" ∈ CodeExecutor.get_available_languages allTools := by
  obtain ⟨a, b, c⟩ := c10_language_gate allTools "javascript" (by decide)
  exact ⟨a, b rfl, c rfl⟩

/-- Collaborator environment with nothing available: no tools detected, the
code runner always fails, the chart renderer always declines. -/
def envNone : ReportAgent.ExecEnv :=
  ⟨⟨false, false, false, false, false, false, false, false, false⟩,
   fun _ _ => (false, ""), fun _ => none⟩

/-- The insertion point of the repository's own test 5
(`test_v0.2.3.py`, `InsertionPoint(10, "Test question", "", "")`). -/
def testPoint : InsertionPoint := { para_index := 10, description := "Test question" }

/-- The markdown-table response of the repository's own test 5. -/
def c4Response : String :=
  "Here is the analysis:\n\n| Algorithm | Time | Space |\n|-----------|------|-------|\n| BFS | O(n) | O(n) |\n| DFS | O(n) | O(h) |\n\nThe table shows the comparison."

set_option maxRecDepth 40000 in
/-- C4: on the repository's own table-bearing test response the structured
content parser emits only text blocks — the pipe-delimited table rows are
joined into an ordinary text block and no table ContentBlock is produced
(the repository's test 5 expects a `table` item here and fails). -/
theorem c4_no_table_blocks :
    ReportAgent.parse_response_to_structured_content envNone c4Response testPoint =
      [ContentItem.text "Here is the analysis:",
       ContentItem.text
         "| Algorithm | Time | Space | |-----------|------|-------| | BFS | O(n) | O(n) | | DFS | O(n) | O(h) |",
       ContentItem.text "The table shows the comparison."] ∧
    (ReportAgent.parse_response_to_structured_content envNone c4Response testPoint).all
        (fun b => !b.isTable) = true := by decide

/-- Paragraph infos produced from index `idx` on carry indices at least
`idx`. -/
lemma analyzeFrom_le (doc : List String) : ∀ (idx : Nat) (p : DocxHandlerOld.ParaInfo),
    p ∈ DocxHandlerOld.analyzeFrom idx doc → idx ≤ p.index := by
  induction doc with
  | nil => intro idx p h; simp [DocxHandlerOld.analyzeFrom] at h
  | cons raw rest ih =>
    intro idx p h
    unfold DocxHandlerOld.analyzeFrom at h
    split at h
    · exact le_trans (Nat.le_succ idx) (ih (idx + 1) p h)
    · rcases List.mem_cons.mp h with rfl | h
      · exact le_refl _
      · exact le_trans (Nat.le_succ idx) (ih (idx + 1) p h)

/-- The paragraph infos are produced in non-decreasing index order. -/
lemma analyzeFrom_pairwise (doc : List String) : ∀ idx : Nat,
    (DocxHandlerOld.analyzeFrom idx doc).Pairwise (fun a b => a.index ≤ b.index) := by
  induction doc with
  | nil => intro idx; simp [DocxHandlerOld.analyzeFrom]
  | cons raw rest ih =>
    intro idx
    unfold DocxHandlerOld.analyzeFrom
    split
    · exact ih (idx + 1)
    · refine List.Pairwise.cons ?_ (ih (idx + 1))
      intro b hb
      exact le_trans (Nat.le_succ idx) (analyzeFrom_le rest (idx + 1) b hb)

/-- A point kept by the `find_insertion_points` filter carries the index of
its paragraph info. -/
lemma foundPoint_index {info : DocxHandlerOld.ParaInfo} {b : DocxHandlerOld.FoundPoint}
    (h : (if info.is_question then
            some (⟨"after_question", info.index, info.text⟩ : DocxHandlerOld.FoundPoint)
          else if info.has_blank then
            some ⟨"fill_blank", info.index, info.text⟩
          else none) = some b) :
    b.para_index = info.index := by
  split at h
  · cases h; rfl
  · split at h
    · cases h; rfl
    · cases h

/-- C5 counterexample: a decoded model response listing anchors 8 then 4
makes the model-assisted locator emit the points in that order, which is
not non-decreasing. -/
theorem c5_unsorted_counterexample :
    (ReportAgent.parse_insertion_points []
        [⟨some 8, some "a"⟩, ⟨some 4, some "b"⟩]).map (fun p => p.para_index) = [8, 4] ∧
    ¬ List.Sorted (· ≤ ·) ([8, 4] : List Int) := by
  exact ⟨by decide, by decide⟩

/-- Members of the integer range `[lo, hi)` are bounded accordingly. -/
lemma intRangeIdx_mem {lo hi i : Int} (h : i ∈ ReportAgent.intRangeIdx lo hi) :
    lo ≤ i ∧ i < hi := by
  unfold ReportAgent.intRangeIdx at h
  rw [List.mem_map] at h
  obtain ⟨n, hn, rfl⟩ := h
  rw [List.mem_range] at hn
  simp only [Int.ofNat_eq_coe]
  omega

/-- The after-window loop succeeds when every index it visits is a valid
non-negative position. -/
lemma contextAfterWindow_some (paragraphs : List String) :
    ∀ l : List Int, (∀ i ∈ l, 0 ≤ i ∧ i < (paragraphs.length : Int)) →
    ∃ out, ReportAgent.contextAfterWindow paragraphs l = some out := by
  intro l
  induction l with
  | nil => intro _; exact ⟨[], rfl⟩
  | cons i rest ih =>
    intro h
    obtain ⟨hi0, hilen⟩ := h i (List.mem_cons_self i rest)
    obtain ⟨out, hout⟩ := ih fun j hj => h j (List.mem_cons_of_mem i hj)
    have hsome : ReportAgent.pyGetItem paragraphs i =
        some (paragraphs.getD i.toNat "") := by
      unfold ReportAgent.pyGetItem
      rw [if_pos hi0, if_pos hilen]
    refine ⟨if pyStrip (paragraphs.getD i.toNat "") = "" then out
            else pyStrip (paragraphs.getD i.toNat "") :: out, ?_⟩
    simp only [ReportAgent.contextAfterWindow, hsome, hout, Option.map_some']

/-- For a non-negative anchor every index of the after window is a valid
position, so `get_context_around_index` cannot raise. -/
lemma get_context_some (paragraphs : List String) (pi : Int) (h : 0 ≤ pi) :
    ∃ ctx, ReportAgent.get_context_around_index paragraphs pi = some ctx := by
  obtain ⟨out, hout⟩ := contextAfterWindow_some paragraphs
    (ReportAgent.intRangeIdx (pi + 1) (min (paragraphs.length : Int) (pi + 5 + 1)))
    (fun i hi => by
      have hb := intRangeIdx_mem hi
      constructor <;> omega)
  exact ⟨(String.intercalate "\n" (ReportAgent.contextBeforeWindow paragraphs pi 5),
          String.intercalate "\n" out), by
    simp only [ReportAgent.get_context_around_index, hout, Option.map_some']⟩

/-- C5 (amended): the pattern-based strategy always yields points in
non-decreasing anchor order; the model-assisted parse preserves the order
of the decoded response items — its anchor sequence is a prefix of the
`para_index` values of the items that carry one, in response order, and is
the whole sequence when every anchor is non-negative (a negative anchor
can make the context lookup raise, truncating the list there).  In
particular its output is sorted only when the response already is. -/
theorem c5_locator_order :
    (∀ doc : List String,
      List.Sorted (· ≤ ·)
        ((DocxHandlerOld.find_insertion_points doc).map (fun p => p.para_index))) ∧
    (∀ (paragraphs : List String) (items : List ReportAgent.RawPointItem),
      (∃ dropped : List Int,
        (ReportAgent.parse_insertion_points paragraphs items).map (fun p => p.para_index)
            ++ dropped =
          items.filterMap (fun item => item.para_index)) ∧
      ((∀ item ∈ items, ∀ pi ∈ item.para_index, 0 ≤ pi) →
        (ReportAgent.parse_insertion_points paragraphs items).map (fun p => p.para_index) =
          items.filterMap (fun item => item.para_index))) := by
  constructor
  · intro doc
    rw [List.Sorted, List.pairwise_map]
    unfold DocxHandlerOld.find_insertion_points DocxHandlerOld.analyze_structure
    refine List.Pairwise.filterMap _ ?_ (analyzeFrom_pairwise doc 0)
    intro a a' hle b hb b' hb'
    rw [Option.mem_def] at hb hb'
    rw [foundPoint_index hb, foundPoint_index hb']
    exact hle
  · intro paragraphs items
    induction items with
    | nil => exact ⟨⟨[], rfl⟩, fun _ => rfl⟩
    | cons item rest ih =>
      obtain ⟨⟨dropped, hpre⟩, heq⟩ := ih
      have hallrest : (∀ it ∈ item :: rest, ∀ pi ∈ it.para_index, 0 ≤ pi) →
          ∀ it ∈ rest, ∀ pi ∈ it.para_index, 0 ≤ pi :=
        fun hall it hit => hall it (List.mem_cons_of_mem item hit)
      cases hpi : item.para_index with
      | none =>
        refine ⟨⟨dropped, ?_⟩, fun hall => ?_⟩
        · simp only [ReportAgent.parse_insertion_points, hpi, List.filterMap_cons]
          exact hpre
        · simp only [ReportAgent.parse_insertion_points, hpi, List.filterMap_cons]
          exact heq (hallrest hall)
      | some pi =>
        cases hctx : ReportAgent.get_context_around_index paragraphs pi with
        | none =>
          refine ⟨⟨pi :: rest.filterMap (fun it => it.para_index), ?_⟩, fun hall => ?_⟩
          · simp only [ReportAgent.parse_insertion_points, hpi, hctx, List.filterMap_cons,
              List.map_nil, List.nil_append]
          · have h0 : 0 ≤ pi := hall item (List.mem_cons_self item rest) pi hpi
            obtain ⟨ctx, hsome⟩ := get_context_some paragraphs pi h0
            rw [hctx] at hsome
            exact absurd hsome (by simp)
        | some ctx =>
          refine ⟨⟨dropped, ?_⟩, fun hall => ?_⟩
          · simp only [ReportAgent.parse_insertion_points, hpi, hctx, List.filterMap_cons,
              List.map_cons, List.cons_append]
            rw [hpre]
          · simp only [ReportAgent.parse_insertion_points, hpi, hctx, List.filterMap_cons,
              List.map_cons]
            rw [heq (hallrest hall)]

/-- C5 witness: two non-negative anchors listed 8 then 4 come out exactly
in that (decreasing) order. -/
theorem c5_locator_order_witness :
    (ReportAgent.parse_insertion_points ["p0"]
        [⟨some 8, some "a"⟩, ⟨some 4, some "b"⟩]).map (fun p => p.para_index) = [8, 4] := by
  have h := (c5_locator_order.2 ["p0"] [⟨some 8, some "a"⟩, ⟨some 4, some "b"⟩]).2
    (by
      intro item hit pi hpim
      simp only [List.mem_cons, List.not_mem_nil, or_false] at hit
      rcases hit with rfl | rfl <;> cases hpim <;> decide)
  rw [h]
  decide

/-- The scanner returns the accumulator on empty input, whatever the fuel. -/
lemma extractAux_nil (fuel : Nat) (acc : List (String × String)) :
    ReportAgent.extractAux fuel [] acc = ([], acc) := by
  cases fuel <;> rfl

/-- A boolean prefix is no longer than its list. -/
lemma isPrefixL_length : ∀ (l cs : List Char), isPrefixL l cs = true → l.length ≤ cs.length := by
  intro l
  induction l with
  | nil => intro cs _; simp
  | cons a as ih =>
    intro cs h
    cases cs with
    | nil => simp [isPrefixL] at h
    | cons b bs =>
      simp only [isPrefixL, Bool.and_eq_true] at h
      have := ih bs h.2
      simp only [List.length_cons]
      omega

/-- The two pieces of `takeWhileSplit` recombine in length to the input. -/
lemma takeWhileSplit_len {p : Char → Bool} : ∀ l : List Char,
    (ReportAgent.takeWhileSplit p l).1.length + (ReportAgent.takeWhileSplit p l).2.length
      = l.length := by
  intro l
  induction l with
  | nil => rfl
  | cons c cs ih =>
    cases htw : ReportAgent.takeWhileSplit p cs with
    | mk run rest =>
      rw [htw] at ih
      by_cases hp : p c = true
      · have hstep : ReportAgent.takeWhileSplit p (c :: cs) = (c :: run, rest) := by
          unfold ReportAgent.takeWhileSplit
          rw [if_pos hp, htw]
        rw [hstep]
        simp only [List.length_cons] at *
        omega
      · have hstep : ReportAgent.takeWhileSplit p (c :: cs) = ([], c :: cs) := by
          unfold ReportAgent.takeWhileSplit
          rw [if_neg hp]
        rw [hstep]
        simp

/-- A successful `findClose` consumed the three closing backticks. -/
lemma findClose_len : ∀ (l : List Char) (r : List Char × List Char),
    ReportAgent.findClose l = some r → r.2.length + 3 ≤ l.length := by
  intro l
  induction l with
  | nil => intro r h; exact absurd h (by simp [ReportAgent.findClose])
  | cons c cs ih =>
    intro r h
    unfold ReportAgent.findClose at h
    split at h
    · rename_i hback
      cases h
      have h2 := isPrefixL_length ['`', '`'] cs hback.2
      simp only [List.length_cons, List.length_drop] at *
      omega
    · rw [Option.map_eq_some'] at h
      obtain ⟨r', hr', rfl⟩ := h
      have := ih r' hr'
      simp only [List.length_cons]
      omega

/-- A successful fence match consumed at least its four delimiters. -/
lemma tryFence_len : ∀ (cs : List Char) (t : String × String × List Char),
    ReportAgent.tryFence cs = some t → t.2.2.length + 4 ≤ cs.length := by
  intro cs t h
  unfold ReportAgent.tryFence at h
  split at h
  · rename_i hpre
    split at h
    · rename_i tag rest2 heq
      cases hfc : ReportAgent.findClose rest2 with
      | none => rw [hfc] at h; exact absurd h (by simp)
      | some br =>
        rw [hfc] at h
        cases h
        have h1 := isPrefixL_length ['`', '`', '`'] cs hpre
        have h2 := takeWhileSplit_len (p := ReportAgent.isWordChar) (cs.drop 3)
        rw [heq] at h2
        have h3 := findClose_len rest2 br hfc
        simp only [List.length_cons, List.length_drop] at *
        omega
    · exact absurd h (by simp)
  · exact absurd h (by simp)

/-- The code-fence scanner is independent of the fuel once the fuel covers
the input length: each step consumes at least one character. -/
lemma extractAux_fuel : ∀ (f1 f2 : Nat) (cs : List Char) (acc : List (String × String)),
    cs.length ≤ f1 → cs.length ≤ f2 →
    ReportAgent.extractAux f1 cs acc = ReportAgent.extractAux f2 cs acc := by
  intro f1
  induction f1 with
  | zero =>
    intro f2 cs acc h1 _
    have hnil : cs = [] := List.length_eq_zero.mp (by omega)
    subst hnil
    rw [extractAux_nil, extractAux_nil]
  | succ f ih =>
    intro f2 cs acc h1 h2
    cases cs with
    | nil => rw [extractAux_nil, extractAux_nil]
    | cons c cs' =>
      obtain ⟨g, rfl⟩ : ∃ g, f2 = g + 1 :=
        ⟨f2 - 1, by simp only [List.length_cons] at h2; omega⟩
      simp only [List.length_cons] at h1 h2
      simp only [ReportAgent.extractAux]
      cases htf : ReportAgent.tryFence (c :: cs') with
      | none =>
        simp only [htf]
        rw [ih g cs' acc (by omega) (by omega)]
      | some t =>
        obtain ⟨tag, body, rest⟩ := t
        have hlen := tryFence_len (c :: cs') (tag, body, rest) htf
        simp only [List.length_cons] at hlen
        simp only [htf]
        rw [ih g rest (acc ++ [(pyLower (if tag = "" then "python" else tag), body)])
          (by omega) (by omega)]

/-- The bold-markdown scan is independent of the fuel once the fuel covers
the input length. -/
lemma subBoldAux_fuel : ∀ (f1 f2 : Nat) (cs : List Char),
    cs.length ≤ f1 → cs.length ≤ f2 →
    ReportAgent.subBoldAux f1 cs = ReportAgent.subBoldAux f2 cs := by
  intro f1
  induction f1 with
  | zero =>
    intro f2 cs h1 _
    have hnil : cs = [] := List.length_eq_zero.mp (by omega)
    subst hnil
    cases f2 <;> rfl
  | succ f ih =>
    intro f2 cs h1 h2
    cases cs with
    | nil => cases f2 <;> rfl
    | cons c cs' =>
      obtain ⟨g, rfl⟩ : ∃ g, f2 = g + 1 :=
        ⟨f2 - 1, by simp only [List.length_cons] at h2; omega⟩
      simp only [List.length_cons] at h1 h2
      simp only [ReportAgent.subBoldAux]
      by_cases hstar : c = '*' ∧ isPrefixL ['*'] cs' = true
      · rw [if_pos hstar, if_pos hstar]
        have hlen := takeWhileSplit_len (p := fun ch => ch ≠ '*') (cs'.drop 1)
        by_cases hm :
            (ReportAgent.takeWhileSplit (fun ch => ch ≠ '*') (cs'.drop 1)).1 ≠ [] ∧
            isPrefixL ['*', '*']
              (ReportAgent.takeWhileSplit (fun ch => ch ≠ '*') (cs'.drop 1)).2 = true
        · rw [if_pos hm, if_pos hm]
          rw [ih g ((ReportAgent.takeWhileSplit (fun ch => ch ≠ '*') (cs'.drop 1)).2.drop 2)
            (by simp only [List.length_drop] at *; omega)
            (by simp only [List.length_drop] at *; omega)]
        · rw [if_neg hm, if_neg hm, ih g cs' (by omega) (by omega)]
      · rw [if_neg hstar, if_neg hstar, ih g cs' (by omega) (by omega)]

/-- The italic-markdown scan is independent of the fuel once the fuel
covers the input length. -/
lemma subItalicAux_fuel : ∀ (f1 f2 : Nat) (cs : List Char),
    cs.length ≤ f1 → cs.length ≤ f2 →
    ReportAgent.subItalicAux f1 cs = ReportAgent.subItalicAux f2 cs := by
  intro f1
  induction f1 with
  | zero =>
    intro f2 cs h1 _
    have hnil : cs = [] := List.length_eq_zero.mp (by omega)
    subst hnil
    cases f2 <;> rfl
  | succ f ih =>
    intro f2 cs h1 h2
    cases cs with
    | nil => cases f2 <;> rfl
    | cons c cs' =>
      obtain ⟨g, rfl⟩ : ∃ g, f2 = g + 1 :=
        ⟨f2 - 1, by simp only [List.length_cons] at h2; omega⟩
      simp only [List.length_cons] at h1 h2
      simp only [ReportAgent.subItalicAux]
      by_cases hstar : c = '*'
      · rw [if_pos hstar, if_pos hstar]
        have hlen := takeWhileSplit_len (p := fun ch => ch ≠ '*') cs'
        by_cases hm :
            (ReportAgent.takeWhileSplit (fun ch => ch ≠ '*') cs').1 ≠ [] ∧
            isPrefixL ['*'] (ReportAgent.takeWhileSplit (fun ch => ch ≠ '*') cs').2 = true
        · rw [if_pos hm, if_pos hm]
          rw [ih g ((ReportAgent.takeWhileSplit (fun ch => ch ≠ '*') cs').2.drop 1)
            (by simp only [List.length_drop] at *; omega)
            (by simp only [List.length_drop] at *; omega)]
        · rw [if_neg hm, if_neg hm, ih g cs' (by omega) (by omega)]
      · rw [if_neg hstar, if_neg hstar, ih g cs' (by omega) (by omega)]
